import Mathlib

/-!
Verification development for the htmplx request handler (handler.go).

The filesystem is modelled as a finite tree (`FSEntry`); directory entries are
kept in enumeration order with unique names, as a real filesystem reports them.
Compiled regular-expression behaviour is abstracted by a `Matcher` oracle
mapping a trimmed pattern-directory body and a path segment to the capture
pairs of an anchored match (compilation failures and template-parse failures,
both 500-class errors in the source, are outside the model).  Template sources
are opaque strings; parsing a fragment into the composed set is registration
of the (name, source) pair, with the newest registration shadowing older ones,
exactly as `template.Template.New(name).Parse` behaves for lookups.
-/

set_option maxRecDepth 8000

namespace Htmplx

/-- A key/value capture pair produced by a pattern-directory match
(`KeyValuePair` in the source; the key is empty for unnamed captures). -/
structure KeyValuePair where
  key : String
  value : String
deriving DecidableEq

/-- A resolved directory plus its ordered capture list
(`DirEntryWithSubmatches` in the source, keeping the entry name). -/
structure DirEntryWithSubmatches where
  name : String
  submatches : List KeyValuePair
deriving DecidableEq

/-- Shallow model of the `fs.FS` tree handed to the handler. -/
inductive FSEntry where
  | file (content : String)
  | dir (entries : List (String × FSEntry))

/-- `FileInfo.IsDir`. -/
def FSEntry.isDir : FSEntry → Bool
  | .file _ => false
  | .dir _ => true

/-- Immediate children of an entry (empty for a file). -/
def FSEntry.children : FSEntry → List (String × FSEntry)
  | .file _ => []
  | .dir es => es

/-- Look up one name among a directory's entries. -/
def lookupEntry (es : List (String × FSEntry)) (name : String) : Option FSEntry :=
  match es.find? (fun p => p.1 == name) with
  | some p => some p.2
  | none => none

/-- `fs.Stat` by a slash-joined relative path (the model navigates the same
segments the source joins with "/"). -/
def statPath : FSEntry → List String → Option FSEntry
  | e, [] => some e
  | .file _, _ :: _ => none
  | .dir es, n :: rest =>
    match lookupEntry es n with
    | some e => statPath e rest
    | none => none

/-- `listDirEntries`: the immediate children of the directory at `dirPath`
(`fs.WalkDir` with `SkipDir` on subdirectories), in enumeration order. -/
def listDirEntries (fsys : FSEntry) (dirPath : List String) : List (String × FSEntry) :=
  match statPath fsys dirPath with
  | some (.dir es) => es
  | _ => []

/-- Oracle for compiled pattern behaviour: applied to the trimmed body of a
pattern-directory name and a literal segment, returns the capture pairs
(`FindStringSubmatch` submatches zipped with `SubexpNames`) of a match of the
anchored expression, or `none` when the segment does not match. -/
def Matcher : Type := String → String → Option (List KeyValuePair)

/-- Whether a character list starts with the given character. -/
def headIs (l : List Char) (c : Char) : Bool :=
  match l with
  | [] => false
  | a :: _ => a == c

/-- Whether a character list ends with the given character. -/
def lastIs (l : List Char) (c : Char) : Bool := headIs l.reverse c

/-- Whether `s` ends with `suffix` (Go `strings.HasSuffix`). -/
def strEndsWith (s suffix : String) : Bool :=
  suffix.data.reverse.isPrefixOf s.data.reverse

/-- `isRegexPathPart`: length at least three, brace-wrapped. -/
def isRegexPathPart (part : String) : Bool :=
  3 ≤ part.length && headIs part.data '\x7b' && lastIs part.data '\x7d'

/-- `trimRegexPathPart`: strip the wrapping braces (`part[1 : len(part)-1]`). -/
def trimRegexPathPart (part : String) : String :=
  String.mk (part.data.drop 1).dropLast

/-- `findMatchingRegexDirs`: walk the parent's entries in enumeration order,
keep the pattern-named subdirectories whose compiled expression matches the
segment, each with its captures. -/
def findMatchingRegexDirs (m : Matcher) (entries : List (String × FSEntry)) (exp : String) :
    List DirEntryWithSubmatches :=
  entries.filterMap fun p =>
    if isRegexPathPart p.1 && p.2.isDir then
      match m (trimRegexPathPart p.1) exp with
      | some kvs => some ⟨p.1, kvs⟩
      | none => none
    else none

/-- The selection fold over `matchingDirs` (handler.go lines 375-380): start
from the first match and replace it whenever a strictly larger capture list is
seen. -/
def selectBestMatch (first : DirEntryWithSubmatches) (rest : List DirEntryWithSubmatches) :
    DirEntryWithSubmatches :=
  rest.foldl (fun best d => if best.submatches.length < d.submatches.length then d else best) first

/-- Outcome classification of a resolution failure, mirroring whether the Go
error wraps `fs.ErrNotExist` (mapped to 404) or not (mapped to 500). -/
inductive LoadErr where
  | notFound (msg : String)
  | internal (msg : String)
deriving DecidableEq

/-- The directory-matching step of `loadTemplatesAlongPathStartingAtIndex`
(handler.go lines 352-395): reject raw pattern segments, try the exact name,
fall back to pattern matching. -/
def matchSegment (fsys : FSEntry) (m : Matcher) (currentDir : List String) (dir : String) :
    Except LoadErr DirEntryWithSubmatches :=
  if isRegexPathPart dir then
    .error (.notFound ("path includes regex: " ++ dir))
  else
    match statPath fsys (currentDir ++ [dir]) with
    | some info =>
      if info.isDir then .ok ⟨dir, []⟩
      else .error (.notFound (dir ++ " is not a directory"))
    | none =>
      match findMatchingRegexDirs m (listDirEntries fsys currentDir) dir with
      | [] => .error (.notFound ("directory not found: " ++ dir))
      | d0 :: ds => .ok (selectBestMatch d0 ds)

/-- The composed template set: registration order, newest first for lookups. -/
def TemplateSet : Type := List (String × String)

/-- Fragment lookup in the composed set: the most recent registration wins,
as in `html/template` where re-parsing a name replaces the template. -/
def tsGet : TemplateSet → String → Option String
  | [], _ => none
  | p :: rest, n => if p.1 == n then some p.2 else tsGet rest n

/-- Register a directory's fragments in file order (newer registrations
shadow older ones for `tsGet`). -/
def tsInsertAll (ts : TemplateSet) (l : List (String × String)) : TemplateSet :=
  l.foldl (fun acc p => p :: acc) ts

def htmlTmplExt : String := ".html.tmpl"

/-- The per-directory template gathering: immediate files whose names end in
the template suffix, as (fragment name, source) in enumeration order. -/
def rawTemplatesIn (es : List (String × FSEntry)) : List (String × String) :=
  es.filterMap fun p =>
    match p.2 with
    | .file c =>
      if strEndsWith p.1 htmlTmplExt then
        some (String.mk (p.1.data.take (p.1.data.length - htmlTmplExt.length)), c)
      else none
    | .dir _ => none

/-- Fragments gathered from the directory at `p` (empty when `p` is missing or
a file, matching `fs.WalkDir` behaviour on those roots). -/
def dirTemplates (fsys : FSEntry) (p : List String) : List (String × String) :=
  match statPath fsys p with
  | some info => rawTemplatesIn info.children
  | none => []

/-- The fixed layout skeleton defines empty `head` and `body` fragments
(`layoutTemplateString` in layout.go). -/
def initialLayout : TemplateSet := [("head", ""), ("body", "")]

/-- `does404FileExist`: stat the literal entry `404` under `dir`. -/
def does404FileExist (fsys : FSEntry) (dir : List String) : Bool :=
  (statPath fsys (dir ++ ["404"])).isSome

/-- `readFile`: open and read a path; a missing path is the not-exist error,
reading a directory as a file fails with a non-not-exist error. -/
def readFile (fsys : FSEntry) (p : List String) : Except LoadErr String :=
  match statPath fsys p with
  | some (.file c) => .ok c
  | some (.dir _) => .error (.internal "failed to read directory as a file")
  | none => .error (.notFound "file does not exist")

/-- `loadTemplate`: read a template source and register it under `name`. -/
def loadTemplate (fsys : FSEntry) (ts : TemplateSet) (name : String) (p : List String) :
    Except LoadErr TemplateSet :=
  match readFile fsys p with
  | .ok c => .ok ((name, c) :: ts)
  | .error e => .error e

/-- The root-level head/body loading step of `loadTemplates`: a missing file is
skipped, any other failure aborts; the boolean reports whether the file was
found. -/
def loadRootTemplate (fsys : FSEntry) (ts : TemplateSet) (name : String) (filename : String) :
    Except LoadErr (TemplateSet × Bool) :=
  match loadTemplate fsys ts name [filename] with
  | .ok ts' => .ok (ts', true)
  | .error (.notFound _) => .ok (ts, false)
  | .error (.internal msg) => .error (.internal msg)

/-- `loadTemplatesAlongPathStartingAtIndex`: `currentDir` is the resolved
prefix `path[:pathIndex]` (pattern segments already replaced by real directory
names) and the last argument the remaining segments.  The result mirrors the
Go multi-return: body-found flag, accumulated entries with submatches, the
updated template set, and an optional error. -/
def loadTemplatesAlongPath (fsys : FSEntry) (m : Matcher) (layout : TemplateSet)
    (currentDir : List String) :
    List String → Bool × List DirEntryWithSubmatches × TemplateSet × Option LoadErr
  | [] =>
    if does404FileExist fsys currentDir then
      (false, [], layout, some (.notFound "404 file found"))
    else
      (false, [], layout, none)
  | dir :: rest =>
    match matchSegment fsys m currentDir dir with
    | .error e => (false, [], layout, some e)
    | .ok entry =>
      match statPath fsys (currentDir ++ [entry.name]) with
      | none =>
        (false, [entry], layout,
          some (.notFound ("failed to look up entries in " ++ entry.name)))
      | some info =>
        let raw := rawTemplatesIn info.children
        if raw.any (fun p => p.1 == "") then
          (false, [entry], layout, some (.internal "template file found without name"))
        else
          match loadTemplatesAlongPath fsys m (tsInsertAll layout raw)
              (currentDir ++ [entry.name]) rest with
          | (bodyFound, subs, ts, some e) => (bodyFound, entry :: subs, ts, some e)
          | (bodyFound, subs, ts, none) =>
            (bodyFound || raw.any (fun p => p.1 == "body"), entry :: subs, ts, none)

/-- `loadTemplates`: load root `head`/`body`, then descend along the path.
Note the faithful reassignment of the body-found flag by the recursive call
when the path is nonempty (handler.go line 275). -/
def loadTemplates (fsys : FSEntry) (m : Matcher) (path : List String) :
    List DirEntryWithSubmatches × TemplateSet × Option LoadErr :=
  match loadRootTemplate fsys initialLayout "head" "head.html.tmpl" with
  | .error e => ([], initialLayout, some e)
  | .ok (ts1, _) =>
    match loadRootTemplate fsys ts1 "body" "body.html.tmpl" with
    | .error e => ([], ts1, some e)
    | .ok (ts2, rootBodyFound) =>
      match path with
      | [] =>
        if rootBodyFound then ([], ts2, none)
        else ([], ts2, some (.notFound "no body defined"))
      | _ :: _ =>
        match loadTemplatesAlongPath fsys m ts2 [] path with
        | (_, _, ts3, some e) => ([], ts3, some e)
        | (bodyFound, subs, ts3, none) =>
          if bodyFound then (subs, ts3, none)
          else ([], ts3, some (.notFound "no body defined"))

/-- Helper for Go's `path.Ext`: walk the reversed characters, stop at a slash,
return the suffix from the last dot of the final element. -/
def pathExtAux : List Char → List Char → String
  | [], _ => ""
  | c :: rest, acc =>
    if c = '/' then ""
    else if c = '.' then String.mk ('.' :: acc)
    else pathExtAux rest (c :: acc)

/-- Go's `path.Ext`: the suffix of the final slash-separated element of the
path beginning at its last dot, or empty when that element has no dot. -/
def pathExt (p : String) : String := pathExtAux p.toList.reverse []

def isSlash (c : Char) : Bool := c == '/'

/-- `strings.Trim(p, "/")`: strip leading and trailing slashes only. -/
def trimSlashes (l : List Char) : List Char :=
  ((l.dropWhile isSlash).reverse.dropWhile isSlash).reverse

/-- `strings.Split(s, "/")` on the characters of a path: interior empty
substrings are kept. -/
def splitSlashAux (cur : List Char) : List Char → List String
  | [] => [String.mk cur.reverse]
  | c :: rest =>
    if c = '/' then String.mk cur.reverse :: splitSlashAux [] rest
    else splitSlashAux (c :: cur) rest

/-- The segment computation of `ServeFile` (handler.go lines 85-88): trim
leading and trailing slashes, then split on "/"; an empty trimmed path gives
no segments. -/
def splitPathParts (p : String) : List String :=
  match trimSlashes p.toList with
  | [] => []
  | c :: rest => splitSlashAux [] (c :: rest)

/-- The read loop of `sniffContentType`: `acc` is what is already in the
512-byte buffer, `rem` the unread file contents, and `sched` dictates how many
bytes each `Read` call yields (capped by the request and by what remains; an
exhausted schedule yields as much as requested).  The loop stops on end of
file, a zero-byte read, or a full buffer, returning the sniffed prefix and the
unread remainder.  The fuel argument is only the structural bound on the
number of iterations; every continuing iteration consumes at least one byte of
`rem`, so starting the fuel at `rem.length` never exhausts it. -/
def sniffStepN (acc rem : List Char) (sched : List Nat) : Nat :=
  min (sched.headD 512) (min (512 - acc.length) rem.length)

def sniffLoopGo : Nat → List Char → List Char → List Nat → List Char × List Char
  | _, acc, [], _ => (acc, [])
  | 0, acc, rem, _ => (acc, rem)
  | fuel + 1, acc, c :: rem', sched =>
    if sniffStepN acc (c :: rem') sched = 0 ∨
        512 ≤ acc.length + sniffStepN acc (c :: rem') sched then
      (acc ++ (c :: rem').take (sniffStepN acc (c :: rem') sched),
        (c :: rem').drop (sniffStepN acc (c :: rem') sched))
    else
      sniffLoopGo fuel (acc ++ (c :: rem').take (sniffStepN acc (c :: rem') sched))
        ((c :: rem').drop (sniffStepN acc (c :: rem') sched)) sched.tail

def sniffLoop (acc rem : List Char) (sched : List Nat) : List Char × List Char :=
  sniffLoopGo rem.length acc rem sched

/-- `sniffContentType`: run the read loop from an empty buffer and detect a
content type from the sniffed prefix (detection abstracted by `detect`). -/
def sniffContentType (detect : List Char → String) (content : List Char) (sched : List Nat) :
    String × List Char × List Char :=
  let pr := sniffLoop [] content sched
  (detect pr.1, pr.1, pr.2)

/-- `readFileAndContentType`: open the file, take the extension-derived MIME
type when known, otherwise sniff; the response body is the sniffed prefix
followed by the unread remainder.  A missing file is reported as `none`
(mapped to 404); reading a directory fails. -/
def readFileAndContentType (fsys : FSEntry) (mimeByExt : String → String)
    (detect : List Char → String) (sched : List Nat) (filename : String) :
    Except LoadErr (Option (List Char × String)) :=
  match statPath fsys (splitSlashAux [] filename.toList) with
  | none => .ok none
  | some (.dir _) => .error (.internal ("failed to read file " ++ filename))
  | some (.file c) =>
    let ct := mimeByExt (pathExt filename)
    if ct = "" then
      let s := sniffContentType detect c.toList sched
      .ok (some (s.2.1 ++ s.2.2, s.1))
    else
      .ok (some (c.toList, ct))

/-- The observable outcome of `ServeFile` for a GET request: 404, 500, a
rendered page (carrying the composed template set and the path submatches), or
a streamed static file. -/
inductive Outcome where
  | notFound
  | internalError
  | page (ts : TemplateSet) (subs : List DirEntryWithSubmatches)
  | file (content : List Char) (contentType : String)

/-- `strings.TrimPrefix(urlPath, "/")`. -/
def stripLeadingSlash (p : String) : String :=
  match p.data with
  | '/' :: rest => String.mk rest
  | _ => p

/-- `ServeFile` (handler.go lines 75-153): extension paths go to static-file
serving, with template sources hidden; extensionless paths go through template
resolution, whose not-exist failures become 404 and other failures 500. -/
def serveFile (fsys : FSEntry) (m : Matcher) (mimeByExt : String → String)
    (detect : List Char → String) (sched : List Nat) (urlPath : String) : Outcome :=
  let ext := pathExt urlPath
  if ext ≠ "" then
    if ext = ".tmpl" then .notFound
    else
      match readFileAndContentType fsys mimeByExt detect sched (stripLeadingSlash urlPath) with
      | .error _ => .internalError
      | .ok none => .notFound
      | .ok (some (c, ct)) => .file c ct
  else
    match loadTemplates fsys m (splitPathParts urlPath) with
    | (_, _, some (.notFound _)) => .notFound
    | (_, _, some (.internal _)) => .internalError
    | (subs, ts, none) => .page ts subs

/-- The last registration of a fragment name within one directory's gathered
list (what survives when the whole list is registered in order). -/
def lookupLast (l : List (String × String)) (n : String) : Option String :=
  match l with
  | [] => none
  | p :: rest =>
    match lookupLast rest n with
    | some c => some c
    | none => if p.1 == n then some p.2 else none

/-- Register level after level into a template set. -/
def foldInsertAll (ts : TemplateSet) (ls : List (List (String × String))) : TemplateSet :=
  ls.foldl tsInsertAll ts

/-- The per-level fragment lists along a resolved directory chain. -/
def rawsAlong (fsys : FSEntry) (currentDir : List String) :
    List String → List (List (String × String))
  | [] => []
  | d :: ds => dirTemplates fsys (currentDir ++ [d]) :: rawsAlong fsys (currentDir ++ [d]) ds

/-- A matcher that never matches. -/
def mNone : Matcher := fun _ _ => none

/-- A matcher that matches every segment with zero captures. -/
def mAll : Matcher := fun _ _ => some []

/-- Trivial MIME table (no known extensions). -/
def mime0 : String → String := fun _ => ""

/-- Trivial content detector. -/
def detect0 : List Char → String := fun _ => ""

/-- Whether an outcome is the 404 response. -/
def Outcome.isNotFound : Outcome → Bool
  | .notFound => true
  | _ => false

/-- Whether an outcome is a rendered page (a 200 `text/html` response). -/
def Outcome.isPage : Outcome → Bool
  | .page _ _ => true
  | _ => false

/-- Tree with a root body and an empty subdirectory `a`. -/
def fsRootBody : FSEntry := .dir [("body.html.tmpl", .file "B"), ("a", .dir [])]

/-- Tree whose only body lives inside a directory literally named like a
pattern directory. -/
def fsLiteralPatternDir : FSEntry :=
  .dir [("\x7ba\x7d", .dir [("body.html.tmpl", .file "B")])]

/-- Tree with a literal directory `abc` and a pattern-named sibling. -/
def fsLiteralAndPattern : FSEntry :=
  .dir [("abc", .dir [("body.html.tmpl", .file "B")]), ("\x7b.*\x7d", .dir [])]

/-- Two sibling pattern directories. -/
def fsTwoPatterns : FSEntry := .dir [("\x7bp1\x7d", .dir []), ("\x7bp2\x7d", .dir [])]

/-- A matcher under which both pattern bodies match the segment `42`, the
second with more captured values. -/
def mTwo : Matcher := fun pat s =>
  if pat == "p1" && s == "42" then some [⟨"", "42"⟩]
  else if pat == "p2" && s == "42" then some [⟨"a", "4"⟩, ⟨"b", "2"⟩]
  else none

/-- The two matches `mTwo` produces on `fsTwoPatterns` for segment `42`. -/
def twoMatches : List DirEntryWithSubmatches :=
  [⟨"\x7bp1\x7d", [⟨"", "42"⟩]⟩, ⟨"\x7bp2\x7d", [⟨"a", "4"⟩, ⟨"b", "2"⟩]⟩]

/-- Tree with a directory named `d.tmpl` holding a body. -/
def fsTmplDir : FSEntry := .dir [("d.tmpl", .dir [("body.html.tmpl", .file "B")])]

/-- Tree whose directory `a` holds both a body and a `404` marker file. -/
def fsMarker : FSEntry :=
  .dir [("a", .dir [("body.html.tmpl", .file "B"), ("404", .file "x")])]

/-- Tree whose directory `a` holds only a `404` marker file. -/
def fsMarkerOnly : FSEntry := .dir [("a", .dir [("404", .file "x")])]

/-- Tree `a/b` with the body at `b`. -/
def fsNested : FSEntry := .dir [("a", .dir [("b", .dir [("body.html.tmpl", .file "B")])])]

/-- Tree with a plain file `x` and a pattern directory able to match `x`. -/
def fsFileAndPattern : FSEntry :=
  .dir [("x", .file "F"), ("\x7b.*\x7d", .dir [("body.html.tmpl", .file "B")])]

/-- Root head and body with a deeper body override under `a`. -/
def fsOverride : FSEntry := .dir
  [("head.html.tmpl", .file "H"), ("body.html.tmpl", .file "RB"),
   ("a", .dir [("body.html.tmpl", .file "AB")])]

/-- A one-file tree for static serving. -/
def fsData : FSEntry := .dir [("data.bin", .file "hello")]

/-- A tree containing a template source file at the root. -/
def fsRootTemplate : FSEntry := .dir [("body.html.tmpl", .file "B")]

theorem tsInsertAll_cons (ts : TemplateSet) (p : String × String) (l : List (String × String)) :
    tsInsertAll ts (p :: l) = tsInsertAll (p :: ts) l := rfl

theorem tsGet_tsInsertAll (l : List (String × String)) (ts : TemplateSet) (n : String) :
    tsGet (tsInsertAll ts l) n =
      match lookupLast l n with
      | some c => some c
      | none => tsGet ts n := by
  induction l generalizing ts with
  | nil => rfl
  | cons p rest ih =>
    rw [tsInsertAll_cons, ih]
    cases h : lookupLast rest n with
    | some c => simp [lookupLast, h]
    | none => cases hpn : p.1 == n <;> simp [lookupLast, h, hpn, tsGet]

theorem foldInsertAll_cons (ts : TemplateSet) (L : List (String × String))
    (ls : List (List (String × String))) :
    foldInsertAll ts (L :: ls) = foldInsertAll (tsInsertAll ts L) ls := rfl

theorem tsGet_foldInsertAll_of_absent (ls : List (List (String × String))) (ts : TemplateSet)
    (n : String) (h : ∀ L ∈ ls, lookupLast L n = none) :
    tsGet (foldInsertAll ts ls) n = tsGet ts n := by
  induction ls generalizing ts with
  | nil => rfl
  | cons L ls ih =>
    rw [foldInsertAll_cons, ih _ (fun L' hL' => h L' (List.mem_cons_of_mem _ hL')),
      tsGet_tsInsertAll, h L (List.mem_cons_self _ _)]

theorem tsGet_foldInsertAll_deepest (ls : List (List (String × String))) (ts : TemplateSet)
    (n c : String) (j : Nat) (Lj : List (String × String))
    (hj : ls.get? j = some Lj) (hlast : lookupLast Lj n = some c)
    (hdeep : ∀ k Lk, j < k → ls.get? k = some Lk → lookupLast Lk n = none) :
    tsGet (foldInsertAll ts ls) n = some c := by
  induction ls generalizing ts j with
  | nil => simp at hj
  | cons L ls ih =>
    cases j with
    | zero =>
      have hL : L = Lj := by simpa using hj
      subst hL
      have habs : ∀ L' ∈ ls, lookupLast L' n = none := by
        intro L' hL'
        obtain ⟨k, hk⟩ := List.get?_of_mem hL'
        exact hdeep (k + 1) L' (Nat.succ_pos k) (by simpa using hk)
      rw [foldInsertAll_cons, tsGet_foldInsertAll_of_absent _ _ _ habs, tsGet_tsInsertAll, hlast]
    | succ j =>
      rw [foldInsertAll_cons]
      refine ih _ j (by simpa using hj) ?_
      intro k Lk hjk hk
      exact hdeep (k + 1) Lk (Nat.succ_lt_succ hjk) (by simpa using hk)

theorem statPath_append_single (p : List String) (fsys : FSEntry) (n : String) :
    statPath fsys (p ++ [n]) =
      match statPath fsys p with
      | some (.dir es) => lookupEntry es n
      | some (.file _) => none
      | none => none := by
  induction p generalizing fsys with
  | nil =>
    cases fsys with
    | file c => rfl
    | dir es =>
      show (match lookupEntry es n with | some e => statPath e [] | none => none)
        = lookupEntry es n
      cases h : lookupEntry es n <;> simp [statPath]
  | cons a p ih =>
    cases fsys with
    | file c => rfl
    | dir es =>
      show (match lookupEntry es a with | some e => statPath e (p ++ [n]) | none => none) = _
      cases h : lookupEntry es a with
      | some e => simp [statPath, h, ih]
      | none => simp [statPath, h]

theorem lookupEntry_isSome_of_mem (es : List (String × FSEntry)) (n : String) (e : FSEntry)
    (h : (n, e) ∈ es) : (lookupEntry es n).isSome = true := by
  induction es with
  | nil => simp at h
  | cons p es ih =>
    simp only [lookupEntry, List.find?]
    cases hb : p.1 == n with
    | true => simp
    | false =>
      rcases List.mem_cons.mp h with h1 | h1
      · rw [← h1] at hb
        simp at hb
      · exact ih h1

theorem selectBestMatch_cons (d0 d1 : DirEntryWithSubmatches) (ds : List DirEntryWithSubmatches) :
    selectBestMatch d0 (d1 :: ds) =
      selectBestMatch (if d0.submatches.length < d1.submatches.length then d1 else d0) ds := rfl

theorem selectBestMatch_spec (ds : List DirEntryWithSubmatches) (d0 : DirEntryWithSubmatches) :
    ∃ i, (d0 :: ds).get? i = some (selectBestMatch d0 ds) ∧
      (∀ x ∈ d0 :: ds, x.submatches.length ≤ (selectBestMatch d0 ds).submatches.length) ∧
      (∀ j x, j < i → (d0 :: ds).get? j = some x →
        x.submatches.length < (selectBestMatch d0 ds).submatches.length) := by
  induction ds generalizing d0 with
  | nil =>
    refine ⟨0, rfl, ?_, ?_⟩
    · intro x hx
      have hx0 : x = d0 := by simpa using hx
      subst hx0
      exact Nat.le_refl _
    · intro j x hj
      exact absurd hj (Nat.not_lt_zero j)
  | cons d1 ds ih =>
    rw [selectBestMatch_cons]
    by_cases h01 : d0.submatches.length < d1.submatches.length
    · rw [if_pos h01]
      obtain ⟨i, hi, hmax, hstrict⟩ := ih d1
      refine ⟨i + 1, by simpa using hi, ?_, ?_⟩
      · intro x hx
        rcases List.mem_cons.mp hx with hx0 | hx1
        · subst hx0
          exact Nat.le_of_lt
            (Nat.lt_of_lt_of_le h01 (hmax d1 (List.mem_cons_self _ _)))
        · exact hmax x hx1
      · intro j x hj hg
        cases j with
        | zero =>
          have hx0 : d0 = x := by simpa using hg
          rw [← hx0]
          exact Nat.lt_of_lt_of_le h01 (hmax d1 (List.mem_cons_self _ _))
        | succ k =>
          exact hstrict k x (Nat.lt_of_succ_lt_succ hj) (by simpa using hg)
    · rw [if_neg h01]
      have h10 : d1.submatches.length ≤ d0.submatches.length := Nat.le_of_not_lt h01
      obtain ⟨i, hi, hmax, hstrict⟩ := ih d0
      cases i with
      | zero =>
        have hb : selectBestMatch d0 ds = d0 := by
          have := hi
          simp at this
          exact this.symm
        refine ⟨0, by simp [hb], ?_, ?_⟩
        · intro x hx
          rcases List.mem_cons.mp hx with hx0 | hx1
          · rw [hx0]
            exact hmax d0 (List.mem_cons_self _ _)
          · rcases List.mem_cons.mp hx1 with hx2 | hx3
            · rw [hx2]
              exact Nat.le_trans h10 (hmax d0 (List.mem_cons_self _ _))
            · exact hmax x (List.mem_cons_of_mem _ hx3)
        · intro j x hj
          exact absurd hj (Nat.not_lt_zero j)
      | succ k =>
        have hik : ds.get? k = some (selectBestMatch d0 ds) := by simpa using hi
        refine ⟨k + 2, by simpa using hik, ?_, ?_⟩
        · intro x hx
          rcases List.mem_cons.mp hx with hx0 | hx1
          · rw [hx0]
            exact hmax d0 (List.mem_cons_self _ _)
          · rcases List.mem_cons.mp hx1 with hx2 | hx3
            · rw [hx2]
              exact Nat.le_trans h10 (hmax d0 (List.mem_cons_self _ _))
            · exact hmax x (List.mem_cons_of_mem _ hx3)
        · intro j x hj hg
          cases j with
          | zero =>
            have hx0 : d0 = x := by simpa using hg
            rw [← hx0]
            exact hstrict 0 d0 (Nat.succ_pos k) rfl
          | succ j1 =>
            cases j1 with
            | zero =>
              have hx1 : d1 = x := by simpa using hg
              rw [← hx1]
              exact Nat.lt_of_le_of_lt h10 (hstrict 0 d0 (Nat.succ_pos k) rfl)
            | succ j2 =>
              have hg' : ds.get? j2 = some x := by simpa using hg
              refine hstrict (j2 + 1) x ?_ (by simpa using hg')
              omega

theorem selectBestMatch_mem (ds : List DirEntryWithSubmatches) (d0 : DirEntryWithSubmatches) :
    selectBestMatch d0 ds ∈ d0 :: ds := by
  obtain ⟨i, hi, _, _⟩ := selectBestMatch_spec ds d0
  exact List.get?_mem hi

theorem matchSegment_ok_statPath_isSome (fsys : FSEntry) (m : Matcher) (cur : List String)
    (d : String) (entry : DirEntryWithSubmatches)
    (h : matchSegment fsys m cur d = .ok entry) :
    (statPath fsys (cur ++ [entry.name])).isSome = true := by
  unfold matchSegment at h
  cases hre : isRegexPathPart d with
  | true => simp [hre] at h
  | false =>
    simp only [hre, Bool.false_eq_true, if_false] at h
    cases hsp : statPath fsys (cur ++ [d]) with
    | some info =>
      rw [hsp] at h
      cases hdir : info.isDir with
      | true =>
        simp only [hdir, if_true] at h
        have he : entry = ⟨d, []⟩ := by
          cases h
          rfl
        rw [he]
        simp [hsp]
      | false => simp [hdir] at h
    | none =>
      rw [hsp] at h
      cases hfm : findMatchingRegexDirs m (listDirEntries fsys cur) d with
      | nil => rw [hfm] at h; simp at h
      | cons d0 ds =>
        rw [hfm] at h
        have he : selectBestMatch d0 ds = entry := by
          cases h
          rfl
        have hm : entry ∈ findMatchingRegexDirs m (listDirEntries fsys cur) d := by
          rw [hfm, ← he]
          exact selectBestMatch_mem ds d0
        obtain ⟨p, hp, hfp⟩ := List.mem_filterMap.mp hm
        cases hcond : (isRegexPathPart p.1 && p.2.isDir) with
        | false => simp [hcond] at hfp
        | true =>
          simp only [hcond, if_true] at hfp
          cases hm5 : m (trimRegexPathPart p.1) d with
          | none => rw [hm5] at hfp; simp at hfp
          | some kvs =>
            rw [hm5] at hfp
            have hname : entry.name = p.1 := by
              cases hfp
              rfl
            cases hstat : statPath fsys cur with
            | none => simp [listDirEntries, hstat] at hp
            | some parent =>
              cases parent with
              | file c => simp [listDirEntries, hstat] at hp
              | dir es =>
                have hpes : p ∈ es := by simpa [listDirEntries, hstat] using hp
                rw [statPath_append_single, hstat, hname]
                have hpair : (p.1, p.2) ∈ es := by simpa using hpes
                exact lookupEntry_isSome_of_mem es p.1 p.2 hpair

theorem loadAlong_ts_eq (rest : List String) (fsys : FSEntry) (m : Matcher)
    (layout : TemplateSet) (cur : List String) (bf : Bool)
    (subs : List DirEntryWithSubmatches) (ts : TemplateSet)
    (h : loadTemplatesAlongPath fsys m layout cur rest = (bf, subs, ts, none)) :
    ts = foldInsertAll layout (rawsAlong fsys cur (subs.map DirEntryWithSubmatches.name)) := by
  induction rest generalizing layout cur bf subs ts with
  | nil =>
    cases h404 : does404FileExist fsys cur with
    | true => simp [loadTemplatesAlongPath, h404] at h
    | false =>
      simp only [loadTemplatesAlongPath, h404, Bool.false_eq_true, if_false,
        Prod.mk.injEq] at h
      obtain ⟨_, hsubs, hts, _⟩ := h
      rw [← hsubs, ← hts]
      rfl
  | cons d rest ih =>
    cases hms : matchSegment fsys m cur d with
    | error e => simp [loadTemplatesAlongPath, hms] at h
    | ok entry =>
      cases hsp : statPath fsys (cur ++ [entry.name]) with
      | none => simp [loadTemplatesAlongPath, hms, hsp] at h
      | some info =>
        cases hr : (rawTemplatesIn info.children).any (fun p => p.1 == "") with
        | true => simp [loadTemplatesAlongPath, hms, hsp, hr] at h
        | false =>
          rcases hrec : loadTemplatesAlongPath fsys m
              (tsInsertAll layout (rawTemplatesIn info.children))
              (cur ++ [entry.name]) rest with ⟨bf', subs', ts', e'⟩
          cases e' with
          | some err => simp [loadTemplatesAlongPath, hms, hsp, hr, hrec] at h
          | none =>
            simp only [loadTemplatesAlongPath, hms, hsp, hr, Bool.false_eq_true, if_false,
              hrec, Prod.mk.injEq] at h
            obtain ⟨_, hsubs, hts, _⟩ := h
            have hihts : ts' = foldInsertAll (tsInsertAll layout (rawTemplatesIn info.children))
                (rawsAlong fsys (cur ++ [entry.name])
                  (subs'.map DirEntryWithSubmatches.name)) :=
              ih _ _ _ _ _ hrec
            rw [← hsubs, ← hts, hihts]
            have hdt : dirTemplates fsys (cur ++ [entry.name]) = rawTemplatesIn info.children := by
              simp [dirTemplates, hsp]
            simp [rawsAlong, foldInsertAll_cons, hdt]

theorem loadAlong_marker (rest : List String) (fsys : FSEntry) (m : Matcher)
    (layout : TemplateSet) (cur : List String) (bf : Bool)
    (subs : List DirEntryWithSubmatches) (ts : TemplateSet) (e : Option LoadErr)
    (h : loadTemplatesAlongPath fsys m layout cur rest = (bf, subs, ts, e))
    (hlen : subs.length = rest.length)
    (h404 : does404FileExist fsys (cur ++ subs.map DirEntryWithSubmatches.name) = true)
    (hni : ∀ msg, e ≠ some (.internal msg)) :
    e = some (.notFound "404 file found") := by
  induction rest generalizing layout cur bf subs ts e with
  | nil =>
    have hsubs : subs = [] := List.length_eq_zero.mp hlen
    rw [hsubs] at h404
    simp only [List.map_nil, List.append_nil] at h404
    simp only [loadTemplatesAlongPath, h404, if_true, Prod.mk.injEq] at h
    exact h.2.2.2.symm
  | cons d rest ih =>
    cases hms : matchSegment fsys m cur d with
    | error err =>
      simp only [loadTemplatesAlongPath, hms, Prod.mk.injEq] at h
      rw [← h.2.1] at hlen
      simp at hlen
    | ok entry =>
      cases hsp : statPath fsys (cur ++ [entry.name]) with
      | none =>
        have := matchSegment_ok_statPath_isSome fsys m cur d entry hms
        rw [hsp] at this
        simp at this
      | some info =>
        cases hr : (rawTemplatesIn info.children).any (fun p => p.1 == "") with
        | true =>
          simp only [loadTemplatesAlongPath, hms, hsp, hr, if_true, Prod.mk.injEq] at h
          exact absurd h.2.2.2.symm (hni "template file found without name")
        | false =>
          rcases hrec : loadTemplatesAlongPath fsys m
              (tsInsertAll layout (rawTemplatesIn info.children))
              (cur ++ [entry.name]) rest with ⟨bf', subs', ts', e'⟩
          cases e' with
          | some err =>
            simp only [loadTemplatesAlongPath, hms, hsp, hr, Bool.false_eq_true, if_false,
              hrec, Prod.mk.injEq] at h
            obtain ⟨_, hsubs, _, he⟩ := h
            have hni' : ∀ msg, (some err : Option LoadErr) ≠ some (.internal msg) := by
              intro msg hmsg
              exact hni msg (by rw [← he]; exact hmsg)
            have h404' : does404FileExist fsys
                ((cur ++ [entry.name]) ++ subs'.map DirEntryWithSubmatches.name) = true := by
              rw [← hsubs] at h404
              simpa [List.append_assoc] using h404
            have hlen' : subs'.length = rest.length := by
              rw [← hsubs] at hlen
              simpa using hlen
            have := ih _ _ _ _ _ _ hrec hlen' h404' hni'
            rw [← he]
            exact this
          | none =>
            simp only [loadTemplatesAlongPath, hms, hsp, hr, Bool.false_eq_true, if_false,
              hrec, Prod.mk.injEq] at h
            obtain ⟨_, hsubs, _, he⟩ := h
            have h404' : does404FileExist fsys
                ((cur ++ [entry.name]) ++ subs'.map DirEntryWithSubmatches.name) = true := by
              rw [← hsubs] at h404
              simpa [List.append_assoc] using h404
            have hlen' : subs'.length = rest.length := by
              rw [← hsubs] at hlen
              simpa using hlen
            have hcontra := ih _ _ _ _ _ _ hrec hlen' h404'
              (by intro msg hmsg; cases hmsg)
            cases hcontra

theorem loadAlong_regex_reject (fsys : FSEntry) (m : Matcher) (layout : TemplateSet)
    (cur rest : List String) (d : String) (hre : isRegexPathPart d = true) :
    loadTemplatesAlongPath fsys m layout cur (d :: rest)
      = (false, [], layout, some (.notFound ("path includes regex: " ++ d))) := by
  simp [loadTemplatesAlongPath, matchSegment, hre]

theorem loadAlong_nondir (fsys : FSEntry) (m : Matcher) (layout : TemplateSet)
    (cur rest : List String) (d : String) (e : FSEntry)
    (hre : isRegexPathPart d = false)
    (hsp : statPath fsys (cur ++ [d]) = some e) (hnd : e.isDir = false) :
    loadTemplatesAlongPath fsys m layout cur (d :: rest)
      = (false, [], layout, some (.notFound (d ++ " is not a directory"))) := by
  simp [loadTemplatesAlongPath, matchSegment, hre, hsp, hnd]

theorem sniffLoopGo_spec (fuel : Nat) (acc rem : List Char) (sched : List Nat)
    (hacc : acc.length ≤ 512) :
    (sniffLoopGo fuel acc rem sched).1.length ≤ 512 ∧
      (sniffLoopGo fuel acc rem sched).1 ++ (sniffLoopGo fuel acc rem sched).2
        = acc ++ rem := by
  induction fuel generalizing acc rem sched with
  | zero =>
    cases rem with
    | nil => exact ⟨by simpa [sniffLoopGo] using hacc, by simp [sniffLoopGo]⟩
    | cons c r => exact ⟨hacc, rfl⟩
  | succ fuel ih =>
    cases rem with
    | nil => exact ⟨by simpa [sniffLoopGo] using hacc, by simp [sniffLoopGo]⟩
    | cons c r =>
      have hn1 : sniffStepN acc (c :: r) sched ≤ 512 - acc.length :=
        Nat.le_trans (Nat.min_le_right _ _) (Nat.min_le_left _ _)
      have hn2 : sniffStepN acc (c :: r) sched ≤ (c :: r).length :=
        Nat.le_trans (Nat.min_le_right _ _) (Nat.min_le_right _ _)
      by_cases hbr : sniffStepN acc (c :: r) sched = 0 ∨
          512 ≤ acc.length + sniffStepN acc (c :: r) sched
      · have hgo : sniffLoopGo (fuel + 1) acc (c :: r) sched =
            (acc ++ (c :: r).take (sniffStepN acc (c :: r) sched),
              (c :: r).drop (sniffStepN acc (c :: r) sched)) := by
          simp [sniffLoopGo, hbr]
        rw [hgo]
        refine ⟨?_, ?_⟩
        · simp only [List.length_append, List.length_take]
          omega
        · rw [List.append_assoc, List.take_append_drop]
      · have hgo : sniffLoopGo (fuel + 1) acc (c :: r) sched =
            sniffLoopGo fuel (acc ++ (c :: r).take (sniffStepN acc (c :: r) sched))
              ((c :: r).drop (sniffStepN acc (c :: r) sched)) sched.tail := by
          simp [sniffLoopGo, hbr]
        rw [hgo]
        have hacc' : (acc ++ (c :: r).take (sniffStepN acc (c :: r) sched)).length ≤ 512 := by
          simp only [List.length_append, List.length_take]
          omega
        obtain ⟨ha, hb⟩ := ih (acc ++ (c :: r).take (sniffStepN acc (c :: r) sched))
          ((c :: r).drop (sniffStepN acc (c :: r) sched)) sched.tail hacc'
        refine ⟨ha, ?_⟩
        rw [hb, List.append_assoc, List.take_append_drop]

theorem toList_slash_append (p : String) : ("/" ++ p).toList = '/' :: p.toList := by
  rcases p with ⟨pl⟩
  rfl

theorem toList_append_slash (p : String) : (p ++ "/").toList = p.toList ++ ['/'] := by
  rcases p with ⟨pl⟩
  rfl

theorem trimSlashes_cons_slash (l : List Char) : trimSlashes ('/' :: l) = trimSlashes l := by
  simp [trimSlashes, List.dropWhile, isSlash]

theorem trimSlashes_append_slash (l : List Char) :
    trimSlashes (l ++ ['/']) = trimSlashes l := by
  unfold trimSlashes
  rw [List.dropWhile_append]
  cases hd : l.dropWhile isSlash with
  | nil => simp [List.dropWhile, isSlash]
  | cons c cs =>
    simp only [List.isEmpty_cons, Bool.false_eq_true, if_false]
    rw [List.reverse_append]
    simp [List.dropWhile, isSlash]

theorem tsGet_head_of_rootLoads (fsys : FSEntry) (ts1 ts2 : TemplateSet) (b1 b2 : Bool)
    (hc : String)
    (hh : loadRootTemplate fsys initialLayout "head" "head.html.tmpl" = .ok (ts1, b1))
    (hb : loadRootTemplate fsys ts1 "body" "body.html.tmpl" = .ok (ts2, b2))
    (hstat : statPath fsys ["head.html.tmpl"] = some (.file hc)) :
    tsGet ts2 "head" = some hc := by
  have hts1 : ts1 = ("head", hc) :: initialLayout := by
    simp only [loadRootTemplate, loadTemplate, readFile, hstat, Except.ok.injEq,
      Prod.mk.injEq] at hh
    exact hh.1.symm
  cases hbstat : statPath fsys ["body.html.tmpl"] with
  | none =>
    have hts2 : ts2 = ts1 := by
      simp only [loadRootTemplate, loadTemplate, readFile, hbstat, Except.ok.injEq,
        Prod.mk.injEq] at hb
      exact hb.1.symm
    rw [hts2, hts1]
    rfl
  | some e =>
    cases e with
    | file bc =>
      have hts2 : ts2 = ("body", bc) :: ts1 := by
        simp only [loadRootTemplate, loadTemplate, readFile, hbstat, Except.ok.injEq,
          Prod.mk.injEq] at hb
        exact hb.1.symm
      rw [hts2, hts1]
      rfl
    | dir es =>
      simp [loadRootTemplate, loadTemplate, readFile, hbstat] at hb

/-- C1: on the concrete tree holding `body.html.tmpl` at the root and an empty
directory `a`, resolving the path `a` fails with the "no body defined"
NotFound (a 404) even though a body file exists at the root level of the
resolved path: `loadTemplates` discards the root-level body-found flag by
reassigning it from the recursive walk when the path is nonempty, so a body at
the root never satisfies requests for nonempty paths, contrary to the claim. -/
theorem c1_root_body_ignored :
    statPath fsRootBody ["body.html.tmpl"] = some (.file "B") ∧
      (loadTemplates fsRootBody mNone ["a"]).2.2
        = some (.notFound "no body defined") :=
  ⟨rfl, rfl⟩

/-- C2: whenever resolution succeeds, looking a fragment name up in the final
composed template set yields the registration made by the deepest resolved
directory that defines the name (deeper definitions overwrite shallower ones),
and a root `head.html.tmpl` that no resolved directory redefines is inherited
unchanged into the final set. -/
theorem c2_deeper_overrides (fsys : FSEntry) (m : Matcher) (parts : List String)
    (subs : List DirEntryWithSubmatches) (ts : TemplateSet)
    (h : loadTemplates fsys m parts = (subs, ts, none)) :
    (∀ j Lj n c,
        (rawsAlong fsys [] (subs.map DirEntryWithSubmatches.name)).get? j = some Lj →
        lookupLast Lj n = some c →
        (∀ k Lk, j < k →
          (rawsAlong fsys [] (subs.map DirEntryWithSubmatches.name)).get? k = some Lk →
          lookupLast Lk n = none) →
        tsGet ts n = some c) ∧
      (∀ hc, statPath fsys ["head.html.tmpl"] = some (.file hc) →
        (∀ Lk ∈ rawsAlong fsys [] (subs.map DirEntryWithSubmatches.name),
          lookupLast Lk "head" = none) →
        tsGet ts "head" = some hc) := by
  cases hh : loadRootTemplate fsys initialLayout "head" "head.html.tmpl" with
  | error e => simp [loadTemplates, hh] at h
  | ok r1 =>
    rcases r1 with ⟨ts1, b1⟩
    cases hb : loadRootTemplate fsys ts1 "body" "body.html.tmpl" with
    | error e => simp [loadTemplates, hh, hb] at h
    | ok r2 =>
      rcases r2 with ⟨ts2, b2⟩
      cases parts with
      | nil =>
        cases hb2 : b2 with
        | false => simp [loadTemplates, hh, hb, hb2] at h
        | true =>
          simp only [loadTemplates, hh, hb, hb2, if_true, Prod.mk.injEq] at h
          obtain ⟨hsubs, hts, _⟩ := h
          rw [← hsubs, ← hts]
          constructor
          · intro j Lj n c hj
            simp [rawsAlong] at hj
          · intro hc hstat _
            exact tsGet_head_of_rootLoads fsys ts1 ts2 b1 b2 hc hh hb hstat
      | cons d parts' =>
        rcases hrec : loadTemplatesAlongPath fsys m ts2 [] (d :: parts')
          with ⟨bf, subs', ts3, e'⟩
        cases e' with
        | some err => simp [loadTemplates, hh, hb, hrec] at h
        | none =>
          cases hbf : bf with
          | false => simp [loadTemplates, hh, hb, hrec, hbf] at h
          | true =>
            rw [hbf] at hrec
            simp only [loadTemplates, hh, hb, hrec, if_true, Prod.mk.injEq] at h
            obtain ⟨hsubs, hts, _⟩ := h
            have hts3 : ts3 = foldInsertAll ts2
                (rawsAlong fsys [] (subs'.map DirEntryWithSubmatches.name)) :=
              loadAlong_ts_eq (d :: parts') fsys m ts2 [] true subs' ts3 hrec
            rw [← hsubs, ← hts, hts3]
            constructor
            · intro j Lj n c hj hlast hdeep
              exact tsGet_foldInsertAll_deepest _ ts2 n c j Lj hj hlast hdeep
            · intro hc hstat habs
              rw [tsGet_foldInsertAll_of_absent _ ts2 "head" habs]
              exact tsGet_head_of_rootLoads fsys ts1 ts2 b1 b2 hc hh hb hstat

/-- C2 witness: on the override tree, the body registered under `a` wins over
the root body, while the root head is inherited. -/
theorem c2_deeper_overrides_witness :
    tsGet (("body", "AB") :: ("body", "RB") :: ("head", "H") :: initialLayout) "body"
        = some "AB" ∧
      tsGet (("body", "AB") :: ("body", "RB") :: ("head", "H") :: initialLayout) "head"
        = some "H" := by
  have h := c2_deeper_overrides fsOverride mNone ["a"] [⟨"a", []⟩]
    (("body", "AB") :: ("body", "RB") :: ("head", "H") :: initialLayout) rfl
  refine ⟨?_, ?_⟩
  · refine h.1 0 [("body", "AB")] "body" "AB" rfl rfl ?_
    intro k Lk hk hget
    cases k with
    | zero => exact absurd hk (Nat.lt_irrefl 0)
    | succ k2 => simp [rawsAlong] at hget
  · refine h.2 "H" rfl ?_
    intro Lk hLk
    have hLk' : Lk = [("body", "AB")] := by
      simpa [rawsAlong, dirTemplates, rawTemplatesIn] using hLk
    rw [hLk']
    rfl

/-- C3 counterexample: a directory literally named like a pattern exists for
the identically named segment (with a body inside), yet resolution does not
use it with zero submatches: the segment is rejected as a raw pattern before
the exact lookup is ever attempted, even under a matcher that matches
everything, so the claim fails on segments that are themselves syntactically
pattern names. -/
theorem c3_literal_pattern_dir_counterexample :
    statPath fsLiteralPatternDir ["\x7ba\x7d"]
        = some (.dir [("body.html.tmpl", .file "B")]) ∧
      (FSEntry.dir [("body.html.tmpl", .file "B")]).isDir = true ∧
      loadTemplatesAlongPath fsLiteralPatternDir mAll initialLayout [] ["\x7ba\x7d"]
        = (false, [], initialLayout,
            some (.notFound "path includes regex: \x7ba\x7d")) :=
  ⟨rfl, rfl, rfl⟩

/-- C3 amended: for every segment that is not itself syntactically a
regex-pattern directory name, if a directory with exactly that name exists
under the current scope then the matching step uses it with zero submatches —
the result is a constant in the matcher, so no pattern directory is evaluated,
even when a sibling pattern would match — and it becomes the resolved entry
for that segment in the walk. -/
theorem c3_exact_match_wins (fsys : FSEntry) (m : Matcher) (layout : TemplateSet)
    (cur rest : List String) (d : String) (e : FSEntry)
    (hre : isRegexPathPart d = false)
    (hsp : statPath fsys (cur ++ [d]) = some e) (hdir : e.isDir = true) :
    matchSegment fsys m cur d = .ok ⟨d, []⟩ ∧
      ((loadTemplatesAlongPath fsys m layout cur (d :: rest)).2.1).head?
        = some ⟨d, []⟩ := by
  have hms : matchSegment fsys m cur d = .ok ⟨d, []⟩ := by
    simp [matchSegment, hre, hsp, hdir]
  refine ⟨hms, ?_⟩
  cases hr : (rawTemplatesIn e.children).any (fun p => p.1 == "") with
  | true => simp [loadTemplatesAlongPath, hms, hsp, hr]
  | false =>
    rcases hrec : loadTemplatesAlongPath fsys m
        (tsInsertAll layout (rawTemplatesIn e.children)) (cur ++ [d]) rest
      with ⟨bf', subs', ts', e'⟩
    cases e' <;> simp [loadTemplatesAlongPath, hms, hsp, hr, hrec]

/-- C3 amended witness: segment `abc` with a literal directory `abc` resolves
to it with zero submatches although a sibling pattern directory would match
under the all-matching matcher. -/
theorem c3_exact_match_wins_witness :
    matchSegment fsLiteralAndPattern mAll [] "abc" = .ok ⟨"abc", []⟩ ∧
      ((loadTemplatesAlongPath fsLiteralAndPattern mAll initialLayout [] ["abc"]).2.1).head?
        = some ⟨"abc", []⟩ :=
  c3_exact_match_wins fsLiteralAndPattern mAll initialLayout [] [] "abc"
    (.dir [("body.html.tmpl", .file "B")]) rfl rfl rfl

/-- C4: a path segment that is itself syntactically a regex-pattern directory
name is rejected the moment the walk reaches it, with a not-exist failure
(mapped to 404 by `ServeFile`), resolving into no directory and leaving the
template set untouched — uniformly in the filesystem and the matcher, hence
regardless of whether such a directory exists. -/
theorem c4_regex_segment_rejected (fsys : FSEntry) (m : Matcher) (layout : TemplateSet)
    (cur rest : List String) (d : String) (hre : isRegexPathPart d = true) :
    loadTemplatesAlongPath fsys m layout cur (d :: rest)
      = (false, [], layout, some (.notFound ("path includes regex: " ++ d))) :=
  loadAlong_regex_reject fsys m layout cur rest d hre

/-- C4 witness: the raw pattern segment is rejected even though the directory
exists and the matcher would match. -/
theorem c4_regex_segment_rejected_witness :
    loadTemplatesAlongPath fsLiteralPatternDir mAll initialLayout [] ["\x7ba\x7d", "x"]
      = (false, [], initialLayout,
          some (.notFound "path includes regex: \x7ba\x7d")) :=
  c4_regex_segment_rejected fsLiteralPatternDir mAll initialLayout [] ["x"] "\x7ba\x7d" rfl

/-- C5: with no exact directory for the segment and matching pattern
directories present (more than one), the matching step selects the match with
the greatest number of captured values, and among ties the one encountered
first in directory enumeration order: the selected match sits at an index all
of whose predecessors have strictly fewer captures. -/
theorem c5_max_captures_selected (fsys : FSEntry) (m : Matcher) (cur : List String)
    (d : String) (l : List DirEntryWithSubmatches)
    (hre : isRegexPathPart d = false)
    (hsp : statPath fsys (cur ++ [d]) = none)
    (hfm : findMatchingRegexDirs m (listDirEntries fsys cur) d = l)
    (hlen : 1 < l.length) :
    ∃ b i, matchSegment fsys m cur d = .ok b ∧ l.get? i = some b ∧
      (∀ x ∈ l, x.submatches.length ≤ b.submatches.length) ∧
      (∀ j x, j < i → l.get? j = some x →
        x.submatches.length < b.submatches.length) := by
  cases l with
  | nil => simp at hlen
  | cons d0 ds =>
    obtain ⟨i, hi, hmax, hstrict⟩ := selectBestMatch_spec ds d0
    refine ⟨selectBestMatch d0 ds, i, ?_, hi, hmax, hstrict⟩
    simp [matchSegment, hre, hsp, hfm]

/-- C5 witness: both patterns match `42`; the second yields two captures and
is selected over the first's single capture. -/
theorem c5_max_captures_selected_witness :
    ∃ b i, matchSegment fsTwoPatterns mTwo [] "42" = .ok b ∧
      twoMatches.get? i = some b ∧
      (∀ x ∈ twoMatches, x.submatches.length ≤ b.submatches.length) ∧
      (∀ j x, j < i → twoMatches.get? j = some x →
        x.submatches.length < b.submatches.length) :=
  c5_max_captures_selected fsTwoPatterns mTwo [] "42" twoMatches rfl rfl rfl
    (by decide)

/-- C6 counterexample: for the request path `/d.tmpl/` the last path segment
is `d.tmpl`, which ends in `.tmpl`, and a matching directory tree exists; yet
the response is a rendered page, not 404: the extension test runs on the raw
URL path, whose trailing slash leaves `path.Ext` empty, so the request falls
through to template resolution. -/
theorem c6_trailing_slash_counterexample :
    splitPathParts "/d.tmpl/" = ["d.tmpl"] ∧
      strEndsWith "d.tmpl" ".tmpl" = true ∧
      (serveFile fsTmplDir mNone mime0 detect0 [] "/d.tmpl/").isNotFound = false ∧
      (serveFile fsTmplDir mNone mime0 detect0 [] "/d.tmpl/").isPage = true :=
  ⟨rfl, rfl, rfl, rfl⟩

/-- C6 amended: whenever the raw URL path's extension is `.tmpl` — that is,
the final slash-separated element of the path as written ends in `.tmpl` —
the response is 404, uniformly in the filesystem, so no file is opened and the
answer does not depend on whether the named file exists.  A trailing slash
empties the extension and escapes this rule (see the counterexample). -/
theorem c6_tmpl_ext_hidden (fsys : FSEntry) (m : Matcher) (mimeByExt : String → String)
    (detect : List Char → String) (sched : List Nat) (p : String)
    (hext : pathExt p = ".tmpl") :
    serveFile fsys m mimeByExt detect sched p = Outcome.notFound := by
  unfold serveFile
  rw [hext]
  rfl

/-- C6 amended witness: `/body.html.tmpl` is 404 although the file exists. -/
theorem c6_tmpl_ext_hidden_witness :
    serveFile fsRootTemplate mNone mime0 detect0 [] "/body.html.tmpl"
      = Outcome.notFound :=
  c6_tmpl_ext_hidden fsRootTemplate mNone mime0 detect0 [] "/body.html.tmpl" rfl

/-- C7 counterexample: directory `a` holds both `body.html.tmpl` and a `404`
marker; a body is therefore found along the resolved path, yet resolution for
path `a` still fails with the marker's NotFound: the marker check at the end
of the path runs before the body-found flag is even computed and its failure
propagates unconditionally, so it is not conditioned on no body having been
found. -/
theorem c7_marker_counterexample :
    statPath fsMarker ["a", "body.html.tmpl"] = some (.file "B") ∧
      (loadTemplates fsMarker mNone ["a"]).2.2 = some (.notFound "404 file found") :=
  ⟨rfl, rfl⟩

/-- C7 amended: when the walk resolves every segment (one accumulated entry
per segment) and the final resolved directory contains an entry literally
named `404`, the walk fails with the marker NotFound regardless of whether a
body was found anywhere — unless an internal (500-class) failure preempted it,
which the last hypothesis excludes. -/
theorem c7_marker_forces_notfound (fsys : FSEntry) (m : Matcher) (layout : TemplateSet)
    (cur rest : List String) (bf : Bool) (subs : List DirEntryWithSubmatches)
    (ts : TemplateSet) (e : Option LoadErr)
    (h : loadTemplatesAlongPath fsys m layout cur rest = (bf, subs, ts, e))
    (hlen : subs.length = rest.length)
    (h404 : does404FileExist fsys (cur ++ subs.map DirEntryWithSubmatches.name) = true)
    (hni : ∀ msg, e ≠ some (.internal msg)) :
    e = some (.notFound "404 file found") :=
  loadAlong_marker rest fsys m layout cur bf subs ts e h hlen h404 hni

/-- C7 amended witness: the marker under `a` forces the NotFound failure. -/
theorem c7_marker_forces_notfound_witness :
    (loadTemplatesAlongPath fsMarkerOnly mNone initialLayout [] ["a"]).2.2.2
      = some (.notFound "404 file found") :=
  c7_marker_forces_notfound fsMarkerOnly mNone initialLayout [] ["a"]
    false [⟨"a", []⟩] initialLayout
    (loadTemplatesAlongPath fsMarkerOnly mNone initialLayout [] ["a"]).2.2.2
    rfl rfl rfl (fun _ hmsg => LoadErr.noConfusion (Option.some.inj hmsg))

/-- C8 counterexample: splitting `/a//b` keeps the interior empty segment, so
empty segments are not all discarded, and the kept segment changes the
outcome: `/a/b` renders a page on the nested tree while `/a//b` is 404. -/
theorem c8_interior_empty_counterexample :
    splitPathParts "/a//b" = ["a", "", "b"] ∧
      (serveFile fsNested mNone mime0 detect0 [] "/a/b").isPage = true ∧
      serveFile fsNested mNone mime0 detect0 [] "/a//b" = Outcome.notFound :=
  ⟨rfl, rfl, rfl⟩

/-- C8 amended: segment splitting trims only leading and trailing slashes
before splitting on `/`: adding a leading or trailing slash never changes the
segment list, `/` yields zero segments, and two extensionless paths with equal
segment lists are served identically; interior empty segments, however, are
preserved (see the counterexample). -/
theorem c8_trim_split (p q : String) (fsys : FSEntry) (m : Matcher)
    (mimeByExt : String → String) (detect : List Char → String) (sched : List Nat) :
    splitPathParts ("/" ++ p) = splitPathParts p ∧
      splitPathParts (p ++ "/") = splitPathParts p ∧
      splitPathParts "/" = [] ∧
      (pathExt p = "" → pathExt q = "" → splitPathParts p = splitPathParts q →
        serveFile fsys m mimeByExt detect sched p
          = serveFile fsys m mimeByExt detect sched q) := by
  refine ⟨?_, ?_, rfl, ?_⟩
  · unfold splitPathParts
    rw [toList_slash_append, trimSlashes_cons_slash]
  · unfold splitPathParts
    rw [toList_append_slash, trimSlashes_append_slash]
  · intro h1 h2 h3
    simp [serveFile, h1, h2, h3]

/-- C8 amended witness: slash-insensitivity and identical serving on concrete
paths. -/
theorem c8_trim_split_witness :
    splitPathParts ("/" ++ "a/b") = splitPathParts "a/b" ∧
      splitPathParts ("a/b" ++ "/") = splitPathParts "a/b" ∧
      splitPathParts "/" = [] ∧
      (pathExt "a/b" = "" → pathExt "/a/b/" = "" →
        splitPathParts "a/b" = splitPathParts "/a/b/" →
        serveFile fsNested mNone mime0 detect0 [] "a/b"
          = serveFile fsNested mNone mime0 detect0 [] "/a/b/") :=
  c8_trim_split "a/b" "/a/b/" fsNested mNone mime0 detect0 []

/-- C9: for a static file whose extension has no MIME mapping, the sniffed
prefix never exceeds 512 bytes and the produced body is exactly the complete
file contents — the sniffed prefix is prepended to the unread remainder, so no
consumed bytes are lost — for every read schedule. -/
theorem c9_sniff_preserves_content (fsys : FSEntry) (mimeByExt : String → String)
    (detect : List Char → String) (sched : List Nat) (filename : String) (c : String)
    (hsp : statPath fsys (splitSlashAux [] filename.toList) = some (.file c))
    (hmime : mimeByExt (pathExt filename) = "") :
    (sniffLoop [] c.toList sched).1.length ≤ 512 ∧
      readFileAndContentType fsys mimeByExt detect sched filename
        = .ok (some (c.toList, detect (sniffLoop [] c.toList sched).1)) := by
  obtain ⟨h1, h2⟩ := sniffLoopGo_spec c.toList.length [] c.toList sched (by simp)
  have h2' : (sniffLoop [] c.toList sched).1 ++ (sniffLoop [] c.toList sched).2
      = c.toList := by
    simpa [sniffLoop] using h2
  refine ⟨h1, ?_⟩
  simp only [readFileAndContentType, hsp, hmime, sniffContentType, if_true, reduceIte]
  rw [h2']

/-- C9 witness: a five-byte file with a chunked schedule round-trips. -/
theorem c9_sniff_preserves_content_witness :
    (sniffLoop [] "hello".toList [2, 2]).1.length ≤ 512 ∧
      readFileAndContentType fsData mime0 detect0 [2, 2] "data.bin"
        = .ok (some ("hello".toList, detect0 (sniffLoop [] "hello".toList [2, 2]).1)) :=
  c9_sniff_preserves_content fsData mime0 detect0 [2, 2] "data.bin" "hello" rfl rfl

/-- C10: when the next segment names an existing entry that is not a
directory, the walk fails with a not-exist error resolving into nothing, and
the result is the same under any two matchers — pattern directories are never
enumerated or evaluated, because pattern matching is attempted only when the
exact-name stat reports not-exist. -/
theorem c10_nondir_stat_notfound (fsys : FSEntry) (m m' : Matcher) (layout : TemplateSet)
    (cur rest : List String) (d : String) (e : FSEntry)
    (hsp : statPath fsys (cur ++ [d]) = some e) (hnd : e.isDir = false) :
    (∃ msg, loadTemplatesAlongPath fsys m layout cur (d :: rest)
        = (false, [], layout, some (.notFound msg))) ∧
      loadTemplatesAlongPath fsys m layout cur (d :: rest)
        = loadTemplatesAlongPath fsys m' layout cur (d :: rest) := by
  cases hre : isRegexPathPart d with
  | true =>
    rw [loadAlong_regex_reject fsys m layout cur rest d hre,
      loadAlong_regex_reject fsys m' layout cur rest d hre]
    exact ⟨⟨"path includes regex: " ++ d, rfl⟩, rfl⟩
  | false =>
    rw [loadAlong_nondir fsys m layout cur rest d e hre hsp hnd,
      loadAlong_nondir fsys m' layout cur rest d e hre hsp hnd]
    exact ⟨⟨d ++ " is not a directory", rfl⟩, rfl⟩

/-- C10 witness: segment `x` names a file while a sibling pattern directory
would match `x`; the all-matching and never-matching matchers agree and both
fail NotFound. -/
theorem c10_nondir_stat_notfound_witness :
    (∃ msg, loadTemplatesAlongPath fsFileAndPattern mAll initialLayout [] ["x"]
        = (false, [], initialLayout, some (.notFound msg))) ∧
      loadTemplatesAlongPath fsFileAndPattern mAll initialLayout [] ["x"]
        = loadTemplatesAlongPath fsFileAndPattern mNone initialLayout [] ["x"] :=
  c10_nondir_stat_notfound fsFileAndPattern mAll mNone initialLayout [] [] "x"
    (.file "F") rfl rfl

end Htmplx
